import Mathlib

/-!
Verification of the `timi` nullable-time library (Go).

The development shallowly embeds `timi.go` and `mongodb/bson_helpers.go`.
The repository delegates calendar arithmetic and RFC 3339 text handling to
the host platform (the Go `time` package and the BSON driver); those
external collaborators are modelled here from their documented contracts,
while every `timi` function is translated directly from the source.

Conventions: machine byte strings are `List Nat` (one `Nat` per byte);
instants are seconds since the Unix epoch (`Int`) plus a nanosecond
offset (`Nat`, kept below `10 ^ 9`); a location is its zone offset in
seconds east of UTC (`Int`, `0` for UTC).
-/

namespace Timi

/-- Model of the error taxonomy: the library surfaces exactly one kind of
failure, a decode (or strict-serialization) error. -/
inductive DecodeError where
  | mk : DecodeError
deriving DecidableEq

/-- The 4-byte literal `null` (bytes 110, 117, 108, 108). -/
def nullLit : List Nat := [110, 117, 108, 108]

/-! ## Calendar arithmetic (model of the platform time primitives) -/

/-- Gregorian leap-year test, as in the platform `isLeap`. -/
def isLeap (y : Int) : Bool :=
  y % 4 == 0 && (y % 100 != 0 || y % 400 == 0)

/-- Leap-year test on a year-of-era index (`Nat`). -/
def isLeapN (n : Nat) : Bool :=
  n % 4 == 0 && (n % 100 != 0 || n % 400 == 0)

/-- Number of days in month `m` (1..12) of a (non-)leap year. -/
def monthDays (leap : Bool) (m : Nat) : Nat :=
  match m with
  | 1 => 31
  | 2 => if leap then 29 else 28
  | 3 => 31
  | 4 => 30
  | 5 => 31
  | 6 => 30
  | 7 => 31
  | 8 => 31
  | 9 => 30
  | 10 => 31
  | 11 => 30
  | 12 => 31
  | _ => 0

/-- Days of the year strictly before month `m` (so `cumDays leap 1 = 0`,
`cumDays leap 13` is the year length). -/
def cumDays (leap : Bool) : Nat → Nat
  | 0 => 0
  | m + 1 => cumDays leap m + monthDays leap m

/-- Day offset of the start of year-of-era `n` (`0 ≤ n ≤ 400`) from the
start of year-of-era `0`; counts the leap years among `0..n-1`. -/
def yoff (n : Nat) : Nat :=
  365 * n + (n + 3) / 4 - (n + 99) / 100 + (n + 399) / 400

/-- Day number (days since 1970-01-01) of January 1 of year `y`. -/
def yearStart (y : Int) : Int :=
  365 * (y - 1) + (y - 1) / 4 - (y - 1) / 100 + (y - 1) / 400 - 719162

/-- Day number of the civil date `(y, m, d)`; `d` may lie outside the
month and rolls over linearly, exactly as in the platform date builder. -/
def daysFromCivil (y : Int) (m : Nat) (d : Int) : Int :=
  yearStart y + (cumDays (isLeap y) m : Int) + d - 1

/-- Largest `n ≤ bound` with `yoff n ≤ roy`, by descending search. -/
def findYearGo (roy : Nat) : Nat → Nat
  | 0 => 0
  | n + 1 => if yoff (n + 1) ≤ roy then n + 1 else findYearGo roy n

/-- Year-of-era of day-of-era `roy` (`0 ≤ roy < 146097`). -/
def findYear (roy : Nat) : Nat :=
  findYearGo roy 399

/-- Largest `m` in `1..bound` with `cumDays leap m ≤ doy`. -/
def findMonthGo (leap : Bool) (doy : Nat) : Nat → Nat
  | 0 => 1
  | 1 => 1
  | m + 2 => if cumDays leap (m + 2) ≤ doy then m + 2 else findMonthGo leap doy (m + 1)

/-- Month (1..12) containing day-of-year `doy` (0-based). -/
def findMonth (leap : Bool) (doy : Nat) : Nat :=
  findMonthGo leap doy 12

/-- Index of the 400-year era containing day number `z`. -/
def eraOf (z : Int) : Int := (z - yearStart 0) / 146097

/-- Day-of-era (0..146096) of day number `z`. -/
def royOf (z : Int) : Nat := (z - yearStart (400 * eraOf z)).toNat

/-- Year-of-era (0..399) of day number `z`. -/
def yoeOf (z : Int) : Nat := findYear (royOf z)

/-- Calendar year containing day number `z`. -/
def yearOf (z : Int) : Int := 400 * eraOf z + (yoeOf z : Int)

/-- Day-of-year (0-based) of day number `z`. -/
def doyOf (z : Int) : Nat := royOf z - yoff (yoeOf z)

/-- Calendar month (1..12) containing day number `z`. -/
def monthOf (z : Int) : Nat := findMonth (isLeap (yearOf z)) (doyOf z)

/-- Day-of-month (1..31) of day number `z`. -/
def dayOf (z : Int) : Nat := doyOf z - cumDays (isLeap (yearOf z)) (monthOf z) + 1

/-- Civil date `(year, month, day)` of a day number, the inverse of
`daysFromCivil`; this models the platform conversion from an absolute
time to calendar fields. -/
def civilFromDays (z : Int) : Int × Nat × Nat := (yearOf z, monthOf z, dayOf z)

/-! ## Calendar lemmas -/

theorem yoff_zero : yoff 0 = 0 := rfl

theorem yoff_400 : yoff 400 = 146097 := by decide

theorem monthDays_le_31 (leap : Bool) (m : Nat) : monthDays leap m ≤ 31 := by
  unfold monthDays
  split <;> first | omega | (split <;> omega)

theorem cumDays_13 (leap : Bool) :
    cumDays leap 13 = if leap then 366 else 365 := by
  cases leap <;> decide

/-- Adjacent-year gap of `yoff` is the year length. -/
theorem yoff_succ_sub (n : Nat) :
    yoff (n + 1) = yoff n + (if isLeapN n then 366 else 365) := by
  have h4 : (n + 1 + 3) / 4 = (n + 3) / 4 + (if n % 4 = 0 then 1 else 0) := by
    split <;> omega
  have h100 : (n + 1 + 99) / 100 = (n + 99) / 100 + (if n % 100 = 0 then 1 else 0) := by
    split <;> omega
  have h400 : (n + 1 + 399) / 400 = (n + 399) / 400 + (if n % 400 = 0 then 1 else 0) := by
    split <;> omega
  have hmod : n % 400 = 0 → n % 100 = 0 := by omega
  have hmod2 : n % 100 = 0 → n % 4 = 0 := by omega
  unfold isLeapN yoff
  rcases Nat.decEq (n % 4) 0 with h | h <;> rcases Nat.decEq (n % 100) 0 with g | g <;>
    rcases Nat.decEq (n % 400) 0 with k | k <;>
    simp [h, g, k, h4, h100, h400] <;> omega

theorem yoff_mono_succ (n : Nat) : yoff n < yoff (n + 1) := by
  rw [yoff_succ_sub]; split <;> omega

/-- Search correctness for the year-of-era search. -/
theorem findYearGo_spec (roy : Nat) : ∀ n, roy < yoff (n + 1) →
    yoff (findYearGo roy n) ≤ roy ∧ roy < yoff (findYearGo roy n + 1) ∧
      findYearGo roy n ≤ n := by
  intro n
  induction n with
  | zero => intro h; exact ⟨by simp [findYearGo, yoff_zero], h, Nat.le_refl 0⟩
  | succ n ih =>
    intro h
    unfold findYearGo
    by_cases hle : yoff (n + 1) ≤ roy
    · rw [if_pos hle]
      exact ⟨hle, h, Nat.le_refl _⟩
    · rw [if_neg hle]
      have := ih (by omega)
      exact ⟨this.1, this.2.1, Nat.le_succ_of_le this.2.2⟩

theorem findYear_spec (roy : Nat) (h : roy < 146097) :
    yoff (findYear roy) ≤ roy ∧ roy < yoff (findYear roy + 1) ∧
      findYear roy ≤ 399 := by
  have := findYearGo_spec roy 399 (by rw [show (399 : Nat) + 1 = 400 from rfl, yoff_400]; exact h)
  exact this

/-- Search correctness for the month search. -/
theorem findMonthGo_spec (leap : Bool) (doy : Nat) : ∀ m, 1 ≤ m →
    doy < cumDays leap (m + 1) →
    1 ≤ findMonthGo leap doy m ∧ findMonthGo leap doy m ≤ m ∧
      cumDays leap (findMonthGo leap doy m) ≤ doy ∧
      doy < cumDays leap (findMonthGo leap doy m + 1) := by
  intro m
  induction m with
  | zero => omega
  | succ m ih =>
    intro _ h
    cases m with
    | zero =>
      have hf : findMonthGo leap doy (0 + 1) = 1 := rfl
      have hc : cumDays leap (findMonthGo leap doy (0 + 1)) = 0 := rfl
      have hd : doy < cumDays leap (findMonthGo leap doy (0 + 1) + 1) := h
      exact ⟨by omega, by omega, by omega, hd⟩
    | succ k =>
      have hunf : findMonthGo leap doy (k + 1 + 1) =
          if cumDays leap (k + 1 + 1) ≤ doy then k + 1 + 1
          else findMonthGo leap doy (k + 1) := rfl
      by_cases hle : cumDays leap (k + 1 + 1) ≤ doy
      · rw [hunf, if_pos hle]
        exact ⟨by omega, by omega, hle, h⟩
      · rw [hunf, if_neg hle]
        have := ih (by omega) (by omega)
        exact ⟨this.1, by omega, this.2.2.1, this.2.2.2⟩

theorem findMonth_spec (leap : Bool) (doy : Nat)
    (h : doy < cumDays leap 13) :
    1 ≤ findMonth leap doy ∧ findMonth leap doy ≤ 12 ∧
      cumDays leap (findMonth leap doy) ≤ doy ∧
      doy < cumDays leap (findMonth leap doy + 1) := by
  exact findMonthGo_spec leap doy 12 (by omega) h

theorem cumDays_succ (leap : Bool) (m : Nat) :
    cumDays leap (m + 1) = cumDays leap m + monthDays leap m := rfl

/-- The start of January 1 repeats with a 146097-day period every 400
years. -/
theorem yearStart_400 (q : Int) :
    yearStart (400 * q) = yearStart 0 + 146097 * q := by
  unfold yearStart
  omega

/-- Years within one era are laid out by `yoff`. -/
theorem yearStart_add_yoff (q : Int) (n : Nat) :
    yearStart (400 * q + n) = yearStart (400 * q) + (yoff n : Int) := by
  unfold yearStart yoff
  omega

theorem isLeap_eq_isLeapN (q : Int) (n : Nat) :
    isLeap (400 * q + n) = isLeapN n := by
  rw [Bool.eq_iff_iff]
  unfold isLeap isLeapN
  simp only [Bool.and_eq_true, beq_iff_eq, Bool.or_eq_true, bne_iff_ne, ne_eq]
  omega

theorem royOf_spec (z : Int) :
    (royOf z : Int) = z - yearStart (400 * eraOf z) ∧ royOf z < 146097 := by
  have h400 : yearStart (400 * eraOf z) = yearStart 0 + 146097 * eraOf z :=
    yearStart_400 (eraOf z)
  have hq : eraOf z = (z - yearStart 0) / 146097 := rfl
  unfold royOf
  omega

/-- Every component of `civilFromDays` is in range and `daysFromCivil`
recovers the day number: the two civil-date conversions are mutually
inverse. -/
theorem daysFromCivil_civilFromDays (z : Int) :
    daysFromCivil (yearOf z) (monthOf z) (dayOf z) = z ∧
      1 ≤ monthOf z ∧ monthOf z ≤ 12 ∧ 1 ≤ dayOf z ∧
      dayOf z ≤ monthDays (isLeap (yearOf z)) (monthOf z) := by
  obtain ⟨hroy, hroylt⟩ := royOf_spec z
  obtain ⟨hy1, hy2, hy3⟩ := findYear_spec (royOf z) hroylt
  have hyoe : yoeOf z = findYear (royOf z) := rfl
  rw [← hyoe] at hy1 hy2 hy3
  have hleap : isLeap (yearOf z) = isLeapN (yoeOf z) := isLeap_eq_isLeapN _ _
  have hgap : yoff (yoeOf z + 1) = yoff (yoeOf z) +
      (if isLeapN (yoeOf z) then 366 else 365) := yoff_succ_sub _
  have hdoy : doyOf z = royOf z - yoff (yoeOf z) := rfl
  have hdoylt : doyOf z < cumDays (isLeap (yearOf z)) 13 := by
    rw [hleap, cumDays_13]
    rcases Bool.eq_false_or_eq_true (isLeapN (yoeOf z)) with h | h <;>
      simp [h] at hgap ⊢ <;> omega
  obtain ⟨hm1, hm2, hm3, hm4⟩ := findMonth_spec (isLeap (yearOf z)) (doyOf z) hdoylt
  have hmo : monthOf z = findMonth (isLeap (yearOf z)) (doyOf z) := rfl
  rw [← hmo] at hm1 hm2 hm3 hm4
  have hcumsucc : cumDays (isLeap (yearOf z)) (monthOf z + 1) =
      cumDays (isLeap (yearOf z)) (monthOf z) +
        monthDays (isLeap (yearOf z)) (monthOf z) := cumDays_succ _ _
  have hday : dayOf z = doyOf z - cumDays (isLeap (yearOf z)) (monthOf z) + 1 := rfl
  have hys : yearStart (yearOf z) =
      yearStart (400 * eraOf z) + (yoff (yoeOf z) : Int) := by
    have := yearStart_add_yoff (eraOf z) (yoeOf z)
    exact this
  refine ⟨?_, hm1, hm2, by omega, by omega⟩
  unfold daysFromCivil
  rw [hys]
  omega

/-! ## Model of the platform instant (`time.Time`)

An instant is `sec` seconds since the Unix epoch plus `nsec` nanoseconds
(the platform keeps `0 ≤ nsec < 10 ^ 9`); `off` is the zone offset of the
attached location in seconds east of UTC (`0` for the UTC location). -/

structure GoTime where
  sec : Int
  nsec : Nat
  off : Int
deriving DecidableEq

/-- Unix-second value of the platform zero instant
(January 1, year 1, 00:00:00 UTC). -/
def zeroSec : Int := -62135596800

/-- The zero value of the platform time type. -/
def zeroGoTime : GoTime := { sec := zeroSec, nsec := 0, off := 0 }

/-- Model of `Time.UTC`: same instant, location set to UTC. -/
def goUTC (t : GoTime) : GoTime := { t with off := 0 }

/-- Shift an instant by `k` nanoseconds, renormalizing the nanosecond
field into `[0, 10 ^ 9)`. -/
def addNanos (t : GoTime) (k : Int) : GoTime :=
  let total := t.sec * 1000000000 + (t.nsec : Int) + k
  { sec := total / 1000000000, nsec := (total % 1000000000).toNat, off := t.off }

/-- Model of `Time.Add`: add a duration of `d` nanoseconds. -/
def goAdd (t : GoTime) (d : Int) : GoTime := addNanos t d

/-- Nanoseconds elapsed from the platform zero instant to `t`. -/
def sinceZero (t : GoTime) : Int :=
  (t.sec - zeroSec) * 1000000000 + (t.nsec : Int)

/-- Model of `Time.Truncate`: round down to a multiple of `d`
(nanoseconds) since the zero instant; `d ≤ 0` returns `t` unchanged. -/
def goTruncate (t : GoTime) (d : Int) : GoTime :=
  if d ≤ 0 then t else addNanos t (-(sinceZero t % d))

/-- Model of `Time.Round`: round to the nearest multiple of `d`
(nanoseconds) since the zero instant, half away from the zero instant;
`d ≤ 0` returns `t` unchanged. -/
def goRound (t : GoTime) (d : Int) : GoTime :=
  if d ≤ 0 then t
  else
    let r := sinceZero t % d
    if r + r < d then addNanos t (-r) else addNanos t (d - r)

/-- Model of the platform `norm` helper used by `time.Date`: carry `lo`
into `hi` so that the returned low part lies in `[0, base)`. -/
def normPair (hi lo base : Int) : Int × Int :=
  (hi + lo / base, lo % base)

/-- Model of `time.Date`: build the instant of the given wall clock read
in a location with offset `off`, normalizing all fields (day overflow
rolls into later months, etc.). -/
def goDate (year month day hour minute second nsecond off : Int) : GoTime :=
  let sn := normPair second nsecond 1000000000
  let mi := normPair minute sn.1 60
  let h := normPair hour mi.1 60
  let d := normPair day h.1 24
  let ym := normPair year (month - 1) 12
  let days := daysFromCivil ym.1 ((ym.2).toNat + 1) d.1
  { sec := days * 86400 + d.2 * 3600 + mi.2 * 60 + sn.2 - off,
    nsec := (sn.2).toNat, off := off }

/-- Calendar year of `t`, read in the location of `t`. -/
def goYear (t : GoTime) : Int := (civilFromDays ((t.sec + t.off) / 86400)).1

/-- Calendar month (1..12) of `t`, read in the location of `t`. -/
def goMonth (t : GoTime) : Nat := (civilFromDays ((t.sec + t.off) / 86400)).2.1

/-- Day of month of `t`, read in the location of `t`. -/
def goDay (t : GoTime) : Nat := (civilFromDays ((t.sec + t.off) / 86400)).2.2

/-- Second of day (0..86399) of `t`, read in the location of `t`. -/
def goSecOfDay (t : GoTime) : Nat := ((t.sec + t.off) % 86400).toNat

/-- Hour (0..23) of `t`, read in the location of `t`. -/
def goHour (t : GoTime) : Nat := goSecOfDay t / 3600

/-- Minute (0..59) of `t`, read in the location of `t`. -/
def goMinute (t : GoTime) : Nat := goSecOfDay t / 60 % 60

/-- Second (0..59) of `t`, read in the location of `t`. -/
def goSecond (t : GoTime) : Nat := goSecOfDay t % 60

/-- Model of `Time.AddDate`: shift the wall-clock date fields and
rebuild through `time.Date` in the location of `t`. -/
def goAddDate (t : GoTime) (years months days : Int) : GoTime :=
  goDate (goYear t + years) ((goMonth t : Int) + months) ((goDay t : Int) + days)
    (goHour t) (goMinute t) (goSecond t) (t.nsec) t.off

/-- Model of `Time.After`: instant comparison, location ignored. -/
def goAfter (t u : GoTime) : Bool :=
  t.sec > u.sec || (t.sec == u.sec && t.nsec > u.nsec)

/-- Model of `Time.Before`: instant comparison, location ignored. -/
def goBefore (t u : GoTime) : Bool :=
  t.sec < u.sec || (t.sec == u.sec && t.nsec < u.nsec)

/-- Model of `Time.Compare`. -/
def goCompare (t u : GoTime) : Int :=
  if goBefore t u then -1 else if goAfter t u then 1 else 0

/-- Model of `Time.Equal`: same instant, locations ignored. -/
def goEqual (t u : GoTime) : Bool :=
  t.sec == u.sec && t.nsec == u.nsec

/-- Model of `Time.IsZero`: the instant equals the platform zero
instant (the location is not inspected). -/
def goIsZero (t : GoTime) : Bool :=
  t.sec == zeroSec && t.nsec == 0

/-- Model of `Time.Unix`. -/
def goUnix (t : GoTime) : Int := t.sec

/-- Model of `Time.UnixMilli`. -/
def goUnixMilli (t : GoTime) : Int := t.sec * 1000 + (t.nsec : Int) / 1000000

/-- Model of `time.UnixMilli` (milliseconds to instant). -/
def goFromUnixMilli (msec : Int) : GoTime :=
  { sec := msec / 1000, nsec := (msec % 1000 * 1000000).toNat, off := 0 }

/-! ## Decimal digit printing and fixed-width reading (byte level) -/

/-- Print `v` as exactly `k` decimal digit bytes, zero padded, most
significant first. -/
def padNum : Nat → Nat → List Nat
  | 0, _ => []
  | k + 1, v => (48 + v / 10 ^ k) :: padNum k (v % 10 ^ k)

/-- Read exactly two decimal digit bytes. -/
def readNum2 : List Nat → Option (Nat × List Nat)
  | a :: b :: r =>
    if 48 ≤ a ∧ a ≤ 57 ∧ 48 ≤ b ∧ b ≤ 57 then some ((a - 48) * 10 + (b - 48), r)
    else none
  | _ => none

/-- Read exactly four decimal digit bytes. -/
def readNum4 (bs : List Nat) : Option (Nat × List Nat) := do
  let x ← readNum2 bs
  let y ← readNum2 x.2
  pure (x.1 * 100 + y.1, y.2)

/-- Expect the byte `c` and consume it. -/
def expectByte (c : Nat) : List Nat → Option (List Nat)
  | b :: r => if b = c then some r else none
  | [] => none

/-- Greedily consume decimal digit bytes, returning the accumulated
value, the digit count, and the rest. -/
def takeDigits : List Nat → Nat → Nat → Nat × Nat × List Nat
  | b :: r, acc, k =>
    if 48 ≤ b ∧ b ≤ 57 then takeDigits r (acc * 10 + (b - 48)) (k + 1)
    else (acc, k, b :: r)
  | [], acc, k => (acc, k, [])

/-- A byte list whose head (if any) is not a decimal digit. -/
def nonDigitStart : List Nat → Prop
  | [] => True
  | b :: _ => b < 48 ∨ 57 < b

theorem readNum2_padNum (v : Nat) (h : v < 100) (r : List Nat) :
    readNum2 (padNum 2 v ++ r) = some (v, r) := by
  have e : padNum 2 v = (48 + v / 10) :: (48 + v % 10) :: [] := by
    simp only [padNum]
    norm_num
  rw [e]
  simp only [List.cons_append, List.nil_append, readNum2]
  rw [if_pos (by omega)]
  congr 2
  omega

theorem readNum4_padNum (v : Nat) (h : v < 10000) (r : List Nat) :
    readNum4 (padNum 4 v ++ r) = some (v, r) := by
  have split : padNum 4 v = padNum 2 (v / 100) ++ padNum 2 (v % 100) := by
    simp only [padNum, List.cons_append, List.nil_append, List.cons.injEq]
    norm_num
    omega
  rw [split, List.append_assoc]
  unfold readNum4
  rw [readNum2_padNum (v / 100) (by omega), Option.bind_eq_bind, Option.some_bind,
    readNum2_padNum (v % 100) (by omega), Option.some_bind]
  simp only [Option.pure_def]
  congr 2
  omega

theorem expectByte_cons (c : Nat) (r : List Nat) :
    expectByte c (c :: r) = some r := by
  simp [expectByte]

theorem readNum2_padNum_nil (v : Nat) (h : v < 100) :
    readNum2 (padNum 2 v) = some (v, []) := by
  have e := readNum2_padNum v h []
  rwa [List.append_nil] at e

theorem takeDigits_padNum (k : Nat) : ∀ (v acc cnt : Nat) (r : List Nat),
    v < 10 ^ k → nonDigitStart r →
    takeDigits (padNum k v ++ r) acc cnt = (acc * 10 ^ k + v, cnt + k, r) := by
  induction k with
  | zero =>
    intro v acc cnt r hv hr
    interval_cases v
    cases r with
    | nil => simp [padNum, takeDigits]
    | cons b r =>
      simp only [padNum, List.nil_append, takeDigits]
      rw [if_neg (by unfold nonDigitStart at hr; omega)]
      simp
  | succ k ih =>
    intro v acc cnt r hv hr
    have h10 : 0 < 10 ^ k := Nat.pow_pos (by norm_num)
    have hd : v / 10 ^ k < 10 :=
      (Nat.div_lt_iff_lt_mul h10).mpr (by rw [Nat.pow_succ] at hv; omega)
    have hvm := Nat.div_add_mod v (10 ^ k)
    simp only [padNum, List.cons_append, takeDigits, List.append_eq]
    rw [if_pos (show 48 ≤ 48 + v / 10 ^ k ∧ 48 + v / 10 ^ k ≤ 57 by
      generalize v / 10 ^ k = D at hd ⊢
      omega)]
    rw [ih (v % 10 ^ k) _ _ r (Nat.mod_lt _ h10) hr]
    rw [Nat.add_sub_cancel_left]
    have heq : (acc * 10 + v / 10 ^ k) * 10 ^ k + v % 10 ^ k =
        acc * 10 ^ (k + 1) + v := by
      conv_rhs => rw [← hvm]
      rw [Nat.pow_succ]
      ring
    rw [heq]
    have hcnt : cnt + 1 + k = cnt + (k + 1) := by omega
    rw [hcnt]

/-! ## RFC 3339 text (model of the platform strict codec)

`time.Time.MarshalJSON`/`MarshalText` serialize with layout
`2006-01-02T15:04:05.999999999Z07:00` and report an error when the
timestamp cannot be represented in strict RFC 3339 (year outside
`[0, 9999]`, or a zone offset with sub-minute precision or an hour field
outside `[0, 23]`); `UnmarshalJSON`/`UnmarshalText` parse the same
strict layout. -/

/-- Number of factors of ten (at most `fuel`) dividing `n`. -/
def trailingZeros : Nat → Nat → Nat
  | 0, _ => 0
  | fuel + 1, n => if n % 10 = 0 then trailingZeros fuel (n / 10) + 1 else 0

/-- Fractional-second bytes: empty when `ns = 0`, otherwise a dot and
the nanosecond digits with trailing zeros trimmed. -/
def fracBytes (ns : Nat) : List Nat :=
  if ns = 0 then []
  else
    let j := trailingZeros 8 ns
    46 :: padNum (9 - j) (ns / 10 ^ j)

/-- Zone suffix bytes: `Z` for UTC, otherwise a sign and `hh:mm`. -/
def zoneBytes (off : Int) : List Nat :=
  if off = 0 then [90]
  else (if 0 < off then 43 else 45) ::
    (padNum 2 (off.natAbs / 3600) ++ 58 :: padNum 2 (off.natAbs / 60 % 60))

/-- RFC 3339 serialization of an instant: the wall-clock fields read in
the location of the instant, a fractional part, and the zone suffix. -/
def formatRFC3339 (t : GoTime) : List Nat :=
  padNum 4 (yearOf ((t.sec + t.off) / 86400)).toNat ++
    (45 :: (padNum 2 (monthOf ((t.sec + t.off) / 86400)) ++
    (45 :: (padNum 2 (dayOf ((t.sec + t.off) / 86400)) ++
    (84 :: (padNum 2 (goHour t) ++ (58 :: (padNum 2 (goMinute t) ++
    (58 :: (padNum 2 (goSecond t) ++ (fracBytes t.nsec ++ zoneBytes t.off)))))))))))

/-- Whether the platform strict RFC 3339 serializer accepts `t`: the
displayed year fits in four digits and the zone offset is a whole
number of minutes with an hour field below 24. -/
def canMarshalRFC3339 (t : GoTime) : Bool :=
  let y := (civilFromDays ((t.sec + t.off) / 86400)).1
  0 ≤ y && y ≤ 9999 && t.off % 60 == 0 && t.off.natAbs < 86400

/-- Read the optional fractional-second part (a dot and one to nine
digits), scaling to nanoseconds. -/
def readFrac : List Nat → Option (Nat × List Nat)
  | 46 :: r =>
    let t := takeDigits r 0 0
    if 1 ≤ t.2.1 ∧ t.2.1 ≤ 9 then some (t.1 * 10 ^ (9 - t.2.1), t.2.2) else none
  | r => some (0, r)

/-- Read the zone suffix: `Z`, or a sign and `hh:mm`. -/
def readZone : List Nat → Option (Int × List Nat)
  | 90 :: r => some (0, r)
  | 43 :: r => do
    let hh ← readNum2 r
    let r1 ← expectByte 58 hh.2
    let mm ← readNum2 r1
    if hh.1 ≤ 23 ∧ mm.1 ≤ 59 then pure (((hh.1 * 3600 + mm.1 * 60 : Nat) : Int), mm.2)
    else none
  | 45 :: r => do
    let hh ← readNum2 r
    let r1 ← expectByte 58 hh.2
    let mm ← readNum2 r1
    if hh.1 ≤ 23 ∧ mm.1 ≤ 59 then pure (-((hh.1 * 3600 + mm.1 * 60 : Nat) : Int), mm.2)
    else none
  | _ => none

/-- Read the `yyyy-mm-dd` date part. -/
def readDatePart (bs : List Nat) : Option ((Nat × Nat × Nat) × List Nat) :=
  (readNum4 bs).bind fun y =>
  (expectByte 45 y.2).bind fun r1 =>
  (readNum2 r1).bind fun mo =>
  (expectByte 45 mo.2).bind fun r2 =>
  (readNum2 r2).bind fun d =>
  some ((y.1, mo.1, d.1), d.2)

/-- Read the `hh:mm:ss` clock part. -/
def readClockPart (bs : List Nat) : Option ((Nat × Nat × Nat) × List Nat) :=
  (readNum2 bs).bind fun h =>
  (expectByte 58 h.2).bind fun r1 =>
  (readNum2 r1).bind fun mi =>
  (expectByte 58 mi.2).bind fun r2 =>
  (readNum2 r2).bind fun s =>
  some ((h.1, mi.1, s.1), s.2)

/-- Model of the platform strict RFC 3339 parser: on success the
returned instant carries the parsed zone offset as its location. -/
def parseRFC3339 (bs : List Nat) : Option GoTime :=
  (readDatePart bs).bind fun ymd =>
  (expectByte 84 ymd.2).bind fun r =>
  (readClockPart r).bind fun hms =>
  (readFrac hms.2).bind fun fr =>
  (readZone fr.2).bind fun zo =>
  if zo.2 = [] ∧ 1 ≤ ymd.1.2.1 ∧ ymd.1.2.1 ≤ 12 ∧ 1 ≤ ymd.1.2.2 ∧
      ymd.1.2.2 ≤ monthDays (isLeap (ymd.1.1 : Int)) ymd.1.2.1 ∧
      hms.1.1 ≤ 23 ∧ hms.1.2.1 ≤ 59 ∧ hms.1.2.2 ≤ 59 then
    some { sec := daysFromCivil (ymd.1.1 : Int) ymd.1.2.1 (ymd.1.2.2 : Int) * 86400 +
             ((hms.1.1 * 3600 + hms.1.2.1 * 60 + hms.1.2.2 : Nat) : Int) - zo.1,
           nsec := fr.1, off := zo.1 }
  else none

/-! ## Parser and formatter round-trip lemmas -/

theorem readDatePart_pad (y mo d : Nat) (hy : y < 10000) (hmo : mo < 100)
    (hd : d < 100) (r : List Nat) :
    readDatePart (padNum 4 y ++ (45 :: (padNum 2 mo ++ (45 :: (padNum 2 d ++ r))))) =
      some ((y, mo, d), r) := by
  unfold readDatePart
  simp only [readNum4_padNum y hy, Option.some_bind, expectByte_cons,
    readNum2_padNum mo hmo, readNum2_padNum d hd]

theorem readClockPart_pad (h mi s : Nat) (hh : h < 100) (hmi : mi < 100)
    (hs : s < 100) (r : List Nat) :
    readClockPart (padNum 2 h ++ (58 :: (padNum 2 mi ++ (58 :: (padNum 2 s ++ r))))) =
      some ((h, mi, s), r) := by
  unfold readClockPart
  simp only [readNum2_padNum h hh, Option.some_bind, expectByte_cons,
    readNum2_padNum mi hmi, readNum2_padNum s hs]

theorem trailingZeros_le (fuel : Nat) : ∀ n, trailingZeros fuel n ≤ fuel := by
  induction fuel with
  | zero => intro n; simp [trailingZeros]
  | succ f ih =>
    intro n
    unfold trailingZeros
    split
    · have := ih (n / 10)
      omega
    · omega

theorem trailingZeros_dvd (fuel : Nat) : ∀ n, 10 ^ trailingZeros fuel n ∣ n := by
  induction fuel with
  | zero => intro n; simp [trailingZeros]
  | succ f ih =>
    intro n
    unfold trailingZeros
    split
    · next hmod =>
      obtain ⟨c, hc⟩ := ih (n / 10)
      refine ⟨c, ?_⟩
      have h10 : n = n / 10 * 10 := by omega
      conv_lhs => rw [h10, hc]
      rw [Nat.pow_succ]
      ring
    · simp

/-- The head byte of a zone suffix is `Z`, `+` or `-`. -/
theorem zoneBytes_head (off : Int) :
    ∃ c t, zoneBytes off = c :: t ∧ (c = 90 ∨ c = 43 ∨ c = 45) := by
  unfold zoneBytes
  split
  · exact ⟨90, [], rfl, Or.inl rfl⟩
  · split
    · exact ⟨43, _, rfl, Or.inr (Or.inl rfl)⟩
    · exact ⟨45, _, rfl, Or.inr (Or.inr rfl)⟩

theorem readFrac_fracBytes (ns : Nat) (h9 : ns < 1000000000) (off : Int) :
    readFrac (fracBytes ns ++ zoneBytes off) = some (ns, zoneBytes off) := by
  obtain ⟨c, t, hz, hc⟩ := zoneBytes_head off
  by_cases h0 : ns = 0
  · subst h0
    rw [fracBytes, if_pos rfl, List.nil_append, hz]
    rcases hc with h | h | h <;> subst h <;> rfl
  · rw [fracBytes, if_neg h0]
    have hjle : trailingZeros 8 ns ≤ 8 := trailingZeros_le 8 ns
    have hjdvd : 10 ^ trailingZeros 8 ns ∣ ns := trailingZeros_dvd 8 ns
    have hp : 0 < 10 ^ trailingZeros 8 ns := Nat.pow_pos (by norm_num)
    have hvlt : ns / 10 ^ trailingZeros 8 ns < 10 ^ (9 - trailingZeros 8 ns) := by
      apply (Nat.div_lt_iff_lt_mul hp).mpr
      have : 10 ^ (9 - trailingZeros 8 ns) * 10 ^ trailingZeros 8 ns = 10 ^ 9 := by
        rw [← Nat.pow_add]
        congr 1
        omega
      rw [this]
      exact h9
    have hstart : nonDigitStart (zoneBytes off) := by
      rw [hz]
      unfold nonDigitStart
      omega
    rw [List.cons_append, readFrac]
    rw [takeDigits_padNum (9 - trailingZeros 8 ns) _ 0 0 _ hvlt hstart]
    have hk : 9 - trailingZeros 8 ns ≤ 9 := by omega
    have hk1 : 1 ≤ 9 - trailingZeros 8 ns := by omega
    rw [if_pos ⟨by simpa using hk1, by simpa using hk⟩]
    simp only [Nat.zero_mul, Nat.zero_add]
    rw [show 9 - (9 - trailingZeros 8 ns) = trailingZeros 8 ns from by omega,
      Nat.div_mul_cancel hjdvd]

theorem readZone_zoneBytes (off : Int) (hmod : off % 60 = 0)
    (habs : off.natAbs < 86400) :
    readZone (zoneBytes off) = some (off, []) := by
  by_cases h0 : off = 0
  · subst h0
    rfl
  · have hh : off.natAbs / 3600 < 100 := by omega
    have hm : off.natAbs / 60 % 60 < 100 := by omega
    rw [zoneBytes, if_neg h0]
    by_cases hpos : 0 < off
    · rw [if_pos hpos]
      show readZone (43 :: (padNum 2 (off.natAbs / 3600) ++
        58 :: padNum 2 (off.natAbs / 60 % 60))) = some (off, [])
      simp only [readZone, readNum2_padNum _ hh, readNum2_padNum_nil _ hm,
        expectByte_cons, Option.some_bind, Option.bind_eq_bind]
      rw [if_pos ⟨by omega, by omega⟩]
      simp only [Option.pure_def, Option.some.injEq, Prod.mk.injEq, and_true]
      omega
    · rw [if_neg hpos]
      show readZone (45 :: (padNum 2 (off.natAbs / 3600) ++
        58 :: padNum 2 (off.natAbs / 60 % 60))) = some (off, [])
      simp only [readZone, readNum2_padNum _ hh, readNum2_padNum_nil _ hm,
        expectByte_cons, Option.some_bind, Option.bind_eq_bind]
      rw [if_pos ⟨by omega, by omega⟩]
      simp only [Option.pure_def, Option.some.injEq, Prod.mk.injEq, and_true]
      omega

/-- Strict round trip of the platform RFC 3339 codec: parsing a
serialized instant recovers the instant, its nanoseconds and its zone
offset, whenever the serializer accepts it. -/
theorem parseRFC3339_formatRFC3339 (t : GoTime) (h9 : t.nsec < 1000000000)
    (hy0 : 0 ≤ yearOf ((t.sec + t.off) / 86400))
    (hy1 : yearOf ((t.sec + t.off) / 86400) ≤ 9999)
    (hmod : t.off % 60 = 0) (habs : t.off.natAbs < 86400) :
    parseRFC3339 (formatRFC3339 t) =
      some { sec := t.sec, nsec := t.nsec, off := t.off } := by
  obtain ⟨hinv, hmo1, hmo2, hd1, hd2⟩ :=
    daysFromCivil_civilFromDays ((t.sec + t.off) / 86400)
  have hdm := monthDays_le_31 (isLeap (yearOf ((t.sec + t.off) / 86400)))
    (monthOf ((t.sec + t.off) / 86400))
  have hytn : (yearOf ((t.sec + t.off) / 86400)).toNat < 10000 := by omega
  have hcast : ((yearOf ((t.sec + t.off) / 86400)).toNat : Int) =
      yearOf ((t.sec + t.off) / 86400) := Int.toNat_of_nonneg hy0
  have hsod : goSecOfDay t < 86400 := by
    unfold goSecOfDay
    omega
  have hsplit : (goSecOfDay t : Int) = (t.sec + t.off) % 86400 := by
    unfold goSecOfDay
    omega
  have hh23 : goHour t ≤ 23 := by unfold goHour; omega
  have hmi59 : goMinute t ≤ 59 := by unfold goMinute; omega
  have hs59 : goSecond t ≤ 59 := by unfold goSecond; omega
  unfold parseRFC3339 formatRFC3339
  rw [readDatePart_pad _ _ _ hytn (by omega) (by omega), Option.some_bind]
  rw [show ((((yearOf ((t.sec + t.off) / 86400)).toNat,
      monthOf ((t.sec + t.off) / 86400), dayOf ((t.sec + t.off) / 86400)),
      84 :: (padNum 2 (goHour t) ++ (58 :: (padNum 2 (goMinute t) ++
      (58 :: (padNum 2 (goSecond t) ++
      (fracBytes t.nsec ++ zoneBytes t.off))))))).2 : List Nat) =
    84 :: (padNum 2 (goHour t) ++ (58 :: (padNum 2 (goMinute t) ++
      (58 :: (padNum 2 (goSecond t) ++
      (fracBytes t.nsec ++ zoneBytes t.off)))))) from rfl]
  rw [expectByte_cons, Option.some_bind,
    readClockPart_pad _ _ _ (by omega) (by omega) (by omega), Option.some_bind,
    readFrac_fracBytes t.nsec h9 t.off, Option.some_bind,
    readZone_zoneBytes t.off hmod habs, Option.some_bind]
  rw [if_pos ⟨rfl, by simpa [hcast] using ⟨hmo1, hmo2, hd1, hd2, hh23, hmi59, hs59⟩⟩]
  have hday : goHour t * 3600 + goMinute t * 60 + goSecond t = goSecOfDay t := by
    unfold goHour goMinute goSecond
    omega
  simp only [Option.some.injEq, GoTime.mk.injEq, and_true]
  rw [hcast, hinv]
  omega

/-! ## Platform marshal/unmarshal hooks (`time.Time` codec methods) -/

/-- Model of `time.Time.MarshalText`: strict RFC 3339 bytes, or an
error when the timestamp is not representable. -/
def goTimeMarshalText (t : GoTime) : Except DecodeError (List Nat) :=
  if canMarshalRFC3339 t then Except.ok (formatRFC3339 t) else Except.error DecodeError.mk

/-- Model of `time.Time.MarshalJSON`: the strict RFC 3339 bytes in
double quotes, or an error when the timestamp is not representable. -/
def goTimeMarshalJSON (t : GoTime) : Except DecodeError (List Nat) :=
  if canMarshalRFC3339 t then Except.ok (34 :: (formatRFC3339 t ++ [34]))
  else Except.error DecodeError.mk

/-- Model of `time.Time.UnmarshalJSON` receiver semantics: the bare
literal `null` is a no-op; otherwise the quotes are checked and
stripped, and the inner bytes parsed as strict RFC 3339 (a parse
failure assigns the zero value to the receiver, a quote-check failure
leaves it unchanged). -/
def goTimeUnmarshalJSON (old : GoTime) (bs : List Nat) : GoTime × Option DecodeError :=
  if bs = nullLit then (old, none)
  else if 2 ≤ bs.length ∧ bs.head? = some 34 ∧ bs.getLast? = some 34 then
    match parseRFC3339 (bs.drop 1).dropLast with
    | some g => (g, none)
    | none => (zeroGoTime, some DecodeError.mk)
  else (old, some DecodeError.mk)

/-- Model of `time.Time.UnmarshalText` receiver semantics: the bytes
are parsed as strict RFC 3339 without quotes (a parse failure assigns
the zero value to the receiver). -/
def goTimeUnmarshalText (_old : GoTime) (bs : List Nat) : GoTime × Option DecodeError :=
  match parseRFC3339 bs with
  | some g => (g, none)
  | none => (zeroGoTime, some DecodeError.mk)

/-! ## Model of the document (BSON) driver hooks -/

/-- BSON value tags relevant to the adapter. -/
inductive BsonType where
  | tnull : BsonType
  | tdatetime : BsonType
  | tother : BsonType
deriving DecidableEq

/-- Little-endian 8-byte encoding of an `Int`, reduced modulo `2 ^ 64`
(the driver stores a signed 64-bit millisecond count). -/
def toLE64 (n : Int) : List Nat :=
  let u := (n % 18446744073709551616).toNat
  [u % 256, u / 256 % 256, u / 65536 % 256, u / 16777216 % 256,
   u / 4294967296 % 256, u / 1099511627776 % 256,
   u / 281474976710656 % 256, u / 72057594037927936 % 256]

/-- Little-endian 8-byte decoding to a signed 64-bit value. -/
def fromLE64 (bs : List Nat) : Int :=
  match bs with
  | [b0, b1, b2, b3, b4, b5, b6, b7] =>
    let u : Nat := b0 + 256 * b1 + 65536 * b2 + 16777216 * b3 +
      4294967296 * b4 + 1099511627776 * b5 + 281474976710656 * b6 +
      72057594037927936 * b7
    if u < 9223372036854775808 then (u : Int) else (u : Int) - 18446744073709551616
  | _ => 0

/-- Model of `bson.MarshalValue` on a platform instant: a UTC-datetime
tag with the signed 64-bit Unix millisecond count, little endian. -/
def bsonMarshalValueTime (t : GoTime) : BsonType × List Nat :=
  (BsonType.tdatetime, toLE64 (goUnixMilli t))

/-- Model of `bson.UnmarshalValue` into a platform instant: accepts a
UTC-datetime tag with an 8-byte payload. -/
def bsonUnmarshalValueTime (ty : BsonType) (bs : List Nat) :
    Option GoTime :=
  match ty with
  | BsonType.tdatetime =>
    if bs.length = 8 then some (goFromUnixMilli (fromLE64 bs)) else none
  | _ => none

/-! ## Model of the row-storage (driver value) boundary -/

/-- A driver-level value handed to `Scan`: the null marker, a native
timestamp, or a representation the nullable-timestamp decoder rejects. -/
inductive DriverValue where
  | vnull : DriverValue
  | vtime : GoTime → DriverValue
  | vother : DriverValue
deriving DecidableEq

/-- Model of `sql.NullTime.Scan` receiver semantics: null input yields
the zero time and `Valid = false`; a native timestamp is stored with
`Valid = true`; any other representation sets `Valid = true` and fails
leaving the instant unchanged. -/
def sqlNullTimeScan (old : GoTime) (v : DriverValue) :
    (GoTime × Bool) × Option DecodeError :=
  match v with
  | DriverValue.vnull => ((zeroGoTime, false), none)
  | DriverValue.vtime g => ((g, true), none)
  | DriverValue.vother => ((old, true), some DecodeError.mk)

/-- Model of `sql.NullTime.Value`: the null marker when invalid,
otherwise the stored timestamp; never an error. -/
def sqlNullTimeValue (g : GoTime) (valid : Bool) : DriverValue × Option DecodeError :=
  if valid then (DriverValue.vtime g, none) else (DriverValue.vnull, none)

/-! ## The `timi` value type (translated from `timi.go`) -/

/-- Translation of `type Time sql.NullTime`: an instant plus a validity
flag. -/
structure Time where
  Time : GoTime
  Valid : Bool
deriving DecidableEq

/-- Translation of `var NilTime = Time{Time: time.Time{}, Valid: false}`. -/
def NilTime : Time := { Time := zeroGoTime, Valid := false }

/-- Translation of `Zone`: always reports UTC with zero offset. -/
def Time.Zone (_ : Timi.Time) : String × Int := ("UTC", 0)

/-- Translation of `IsNull`. -/
def Time.IsNull (t : Timi.Time) : Bool := !t.Valid

/-- Translation of `IsZero`. -/
def Time.IsZero (t : Timi.Time) : Bool := goIsZero t.Time

/-- Translation of `After`. -/
def Time.After (t u : Timi.Time) : Bool := goAfter t.Time u.Time

/-- Translation of `Before`. -/
def Time.Before (t u : Timi.Time) : Bool := goBefore t.Time u.Time

/-- Translation of `Compare`. -/
def Time.Compare (t u : Timi.Time) : Int := goCompare t.Time u.Time

/-- Translation of `Equal`. -/
def Time.Equal (t u : Timi.Time) : Bool := goEqual t.Time u.Time

/-- Translation of `Year`. -/
def Time.Year (t : Timi.Time) : Int := goYear t.Time

/-- Translation of `Month`. -/
def Time.Month (t : Timi.Time) : Nat := goMonth t.Time

/-- Translation of `Day`. -/
def Time.Day (t : Timi.Time) : Nat := goDay t.Time

/-- Translation of `Hour`. -/
def Time.Hour (t : Timi.Time) : Nat := goHour t.Time

/-- Translation of `Minute`. -/
def Time.Minute (t : Timi.Time) : Nat := goMinute t.Time

/-- Translation of `Second`. -/
def Time.Second (t : Timi.Time) : Nat := goSecond t.Time

/-- Translation of `Nanosecond`. -/
def Time.Nanosecond (t : Timi.Time) : Nat := t.Time.nsec

/-- Translation of `AddDate`: `t.Time = t.Time.AddDate(...); return t`. -/
def Time.AddDate (t : Timi.Time) (years months days : Int) : Timi.Time :=
  { t with Time := goAddDate t.Time years months days }

/-- Translation of `Truncate`: `t.Time = t.Time.Truncate(d); return t`. -/
def Time.Truncate (t : Timi.Time) (d : Int) : Timi.Time :=
  { t with Time := goTruncate t.Time d }

/-- Translation of `Round`: `t.Time = t.Time.Round(d); return t`. -/
def Time.Round (t : Timi.Time) (d : Int) : Timi.Time :=
  { t with Time := goRound t.Time d }

/-- Translation of `Add`: `t.Time = t.Time.Add(d); return t`. -/
def Time.Add (t : Timi.Time) (d : Int) : Timi.Time :=
  { t with Time := goAdd t.Time d }

/-- Translation of `Unix`. -/
def Time.Unix (t : Timi.Time) : Int := goUnix t.Time

/-- Translation of `UnixMilli`. -/
def Time.UnixMilli (t : Timi.Time) : Int := goUnixMilli t.Time

/-- Translation of `Scan`: delegate to the nullable-timestamp decoder,
then normalize a valid result to UTC. -/
def Time.Scan (t : Timi.Time) (v : DriverValue) : Timi.Time × Option DecodeError :=
  match sqlNullTimeScan t.Time v with
  | (p, some e) => ({ Time := p.1, Valid := p.2 }, some e)
  | ((g, valid), none) =>
    if valid then ({ Time := goUTC g, Valid := true }, none)
    else ({ Time := g, Valid := false }, none)

/-- Translation of `Value`: delegate to `sql.NullTime.Value`. -/
def Time.Value (t : Timi.Time) : DriverValue × Option DecodeError :=
  sqlNullTimeValue t.Time t.Valid

/-- Translation of `MarshalJSON`: the 4-byte literal `null` when the
value is invalid, otherwise the platform JSON encoding of the instant. -/
def Time.MarshalJSON (t : Timi.Time) : Except DecodeError (List Nat) :=
  if !t.Valid then Except.ok nullLit else goTimeMarshalJSON t.Time

/-- Translation of `UnmarshalJSON`: the exact 4-byte literal `null`
yields the null value; otherwise the receiver is marked valid, the
platform parser is run, and a successful result is normalized to UTC. -/
def Time.UnmarshalJSON (t : Timi.Time) (bs : List Nat) : Timi.Time × Option DecodeError :=
  if bs = nullLit then ({ Time := zeroGoTime, Valid := false }, none)
  else
    match goTimeUnmarshalJSON t.Time bs with
    | (g, some e) => ({ Time := g, Valid := true }, some e)
    | (g, none) => ({ Time := goUTC g, Valid := true }, none)

/-- Translation of `MarshalText`: the platform text encoding of the
instant (no null branch in the source). -/
def Time.MarshalText (t : Timi.Time) : Except DecodeError (List Nat) :=
  goTimeMarshalText t.Time

/-- Translation of `UnmarshalText`: the exact 4-byte literal `null`
yields the null value; otherwise the receiver is marked valid, the
platform parser is run, and a successful result is normalized to UTC. -/
def Time.UnmarshalText (t : Timi.Time) (bs : List Nat) : Timi.Time × Option DecodeError :=
  if bs = nullLit then ({ Time := zeroGoTime, Valid := false }, none)
  else
    match goTimeUnmarshalText t.Time bs with
    | (g, some e) => ({ Time := g, Valid := true }, some e)
    | (g, none) => ({ Time := goUTC g, Valid := true }, none)

/-- Translation of the package-level `Date` constructor: build via
`time.Date`, normalize to UTC, mark valid. -/
def Date (year month day hour minute second nsecond off : Int) : Time :=
  { Time := goUTC (goDate year month day hour minute second nsecond off), Valid := true }

/-! ## The BSON helpers (translated from `mongodb/bson_helpers.go`) -/

/-- Translation of `MarshalTimiBSON`: the native null tag with no
payload bytes when invalid, otherwise the driver encoding of the
instant. -/
def MarshalTimiBSON (t : Timi.Time) : BsonType × Option (List Nat) :=
  if !t.Valid then (BsonType.tnull, none)
  else ((bsonMarshalValueTime t.Time).1, some (bsonMarshalValueTime t.Time).2)

/-- Translation of `UnmarshalTimiBSON`: the null tag yields `NilTime`;
otherwise the driver decoding of the payload, normalized to UTC and
marked valid (a decode failure returns `NilTime` with an error). -/
def UnmarshalTimiBSON (ty : BsonType) (bs : Option (List Nat)) :
    Time × Option DecodeError :=
  if ty = BsonType.tnull then (NilTime, none)
  else
    match bsonUnmarshalValueTime ty (bs.getD []) with
    | some g => ({ Time := goUTC g, Valid := true }, none)
    | none => (NilTime, some DecodeError.mk)

/-! ## Supporting lemmas for the claims -/

theorem civilFromDays_1 (z : Int) : (civilFromDays z).1 = yearOf z := rfl

theorem civilFromDays_21 (z : Int) : (civilFromDays z).2.1 = monthOf z := rfl

theorem civilFromDays_22 (z : Int) : (civilFromDays z).2.2 = dayOf z := rfl

theorem toLE64_length (n : Int) : (toLE64 n).length = 8 := rfl

/-- Round trip of the signed 64-bit little-endian encoding. -/
theorem fromLE64_toLE64 (n : Int) (hlo : -9223372036854775808 ≤ n)
    (hhi : n < 9223372036854775808) : fromLE64 (toLE64 n) = n := by
  unfold toLE64 fromLE64
  dsimp only
  have hu0 : 0 ≤ n % 18446744073709551616 := by omega
  have hu1 : n % 18446744073709551616 < 18446744073709551616 := by omega
  split <;> omega

/-- Millisecond round trip: rebuilding an instant from its Unix
millisecond count recovers it when the nanoseconds are a whole number
of milliseconds. -/
theorem goFromUnixMilli_goUnixMilli (g : GoTime) (h9 : g.nsec < 1000000000)
    (hms : g.nsec % 1000000 = 0) :
    goFromUnixMilli (goUnixMilli g) = { sec := g.sec, nsec := g.nsec, off := 0 } := by
  unfold goFromUnixMilli goUnixMilli
  simp only [GoTime.mk.injEq]
  have hb : 0 ≤ (g.nsec : Int) / 1000000 ∧ (g.nsec : Int) / 1000000 ≤ 999 := by omega
  have hq2 : (g.nsec : Int) / 1000000 * 1000000 = (g.nsec : Int) := by omega
  generalize hgen : (g.nsec : Int) / 1000000 = q at hb hq2
  clear hgen hms h9
  constructor
  · omega
  · simp only [and_true]
    omega

/-! ## Spec-side definitions

The specification states UTC normalization as: the wall-clock fields of
a constructed value equal the UTC-converted values of the input. The
UTC-converted fields of an instant are its civil fields at zero
offset. -/

/-- Spec-side UTC year of an instant. -/
def utcYear (sec : Int) : Int := yearOf (sec / 86400)

/-- Spec-side UTC month of an instant. -/
def utcMonth (sec : Int) : Nat := monthOf (sec / 86400)

/-- Spec-side UTC day of an instant. -/
def utcDay (sec : Int) : Nat := dayOf (sec / 86400)

/-- Spec-side UTC hour of an instant. -/
def utcHour (sec : Int) : Nat := (sec % 86400).toNat / 3600

/-- Spec-side UTC minute of an instant. -/
def utcMinute (sec : Int) : Nat := (sec % 86400).toNat / 60 % 60

/-- Spec-side UTC second of an instant. -/
def utcSecond (sec : Int) : Nat := (sec % 86400).toNat % 60

/-! ## Claim theorems -/

set_option maxRecDepth 40000 in
/-- C2 counterexample: `MarshalText` of the Null Value does not emit the
4-byte literal `null`; it emits the RFC 3339 form of the zero instant. -/
theorem claim_C2_counterexample :
    Time.MarshalText NilTime = Except.ok
      [48, 48, 48, 49, 45, 48, 49, 45, 48, 49, 84, 48, 48, 58, 48, 48, 58, 48, 48, 90] ∧
    [48, 48, 48, 49, 45, 48, 49, 45, 48, 49, 84, 48, 48, 58, 48, 48, 58, 48, 48, 90] ≠
      nullLit := by
  constructor
  · rfl
  · decide

/-- C2 (amended): `MarshalText` ignores the `Valid` flag and always
emits the RFC 3339 encoding of the stored instant (so a null value
encodes as the zero-instant timestamp, not as `null`), while
`UnmarshalText` does follow the null branching: decoding the 4-byte
literal `null` yields the Null Value. -/
theorem claim_C2_text_codec (v t0 : Timi.Time) :
    Time.MarshalText v = goTimeMarshalText v.Time ∧
    (∀ b, Time.MarshalText { v with Valid := b } = Time.MarshalText v) ∧
    Time.UnmarshalText t0 nullLit = (NilTime, none) ∧
    (Time.UnmarshalText t0 nullLit).1.IsNull = true := by
  refine ⟨rfl, fun b => rfl, ?_, ?_⟩
  · unfold Time.UnmarshalText
    rw [if_pos rfl]
    rfl
  · unfold Time.UnmarshalText
    rw [if_pos rfl]
    rfl

/-- C3: a value built by `Date` with any zone offset reports zone
`("UTC", 0)`, and its wall-clock accessors equal the UTC-converted
fields of the constructed instant. -/
theorem claim_C3_utc_normalization (y mo d h mi s ns z : Int) :
    Time.Zone (Date y mo d h mi s ns z) = ("UTC", 0) ∧
    Time.Year (Date y mo d h mi s ns z) = utcYear (goDate y mo d h mi s ns z).sec ∧
    Time.Month (Date y mo d h mi s ns z) = utcMonth (goDate y mo d h mi s ns z).sec ∧
    Time.Day (Date y mo d h mi s ns z) = utcDay (goDate y mo d h mi s ns z).sec ∧
    Time.Hour (Date y mo d h mi s ns z) = utcHour (goDate y mo d h mi s ns z).sec ∧
    Time.Minute (Date y mo d h mi s ns z) = utcMinute (goDate y mo d h mi s ns z).sec ∧
    Time.Second (Date y mo d h mi s ns z) = utcSecond (goDate y mo d h mi s ns z).sec := by
  refine ⟨rfl, ?_, ?_, ?_, ?_, ?_, ?_⟩
  · show goYear (goUTC (goDate y mo d h mi s ns z)) = _
    unfold goYear goUTC utcYear
    rw [civilFromDays_1]
    norm_num
  · show goMonth (goUTC (goDate y mo d h mi s ns z)) = _
    unfold goMonth goUTC utcMonth
    rw [civilFromDays_21]
    norm_num
  · show goDay (goUTC (goDate y mo d h mi s ns z)) = _
    unfold goDay goUTC utcDay
    rw [civilFromDays_22]
    norm_num
  · show goHour (goUTC (goDate y mo d h mi s ns z)) = _
    unfold goHour goSecOfDay goUTC utcHour
    norm_num
  · show goMinute (goUTC (goDate y mo d h mi s ns z)) = _
    unfold goMinute goSecOfDay goUTC utcMinute
    norm_num
  · show goSecond (goUTC (goDate y mo d h mi s ns z)) = _
    unfold goSecond goSecOfDay goUTC utcSecond
    norm_num

/-- C4: only the unquoted 4-byte literal `null` triggers null handling
in `UnmarshalJSON`; the quoted empty string and the quoted word
`"null"` are decode errors. -/
theorem claim_C4_null_literal_exclusivity (t0 : Timi.Time) :
    Time.UnmarshalJSON t0 nullLit = ({ Time := zeroGoTime, Valid := false }, none) ∧
    (Time.UnmarshalJSON t0 nullLit).1.IsNull = true ∧
    (Time.UnmarshalJSON t0 [34, 34]).2 = some DecodeError.mk ∧
    (Time.UnmarshalJSON t0 [34, 110, 117, 108, 108, 34]).2 = some DecodeError.mk := by
  refine ⟨?_, ?_, rfl, rfl⟩
  · unfold Time.UnmarshalJSON
    rw [if_pos rfl]
  · unfold Time.UnmarshalJSON
    rw [if_pos rfl]
    rfl

/-- C5: `IsZero` tests only the instant against the platform zero
instant, independently of the `Valid` flag; a valid value carrying the
zero instant is zero but not null. -/
theorem claim_C5_iszero_independence (v : Timi.Time) (b : Bool) :
    (Time.IsZero v = true ↔ (v.Time.sec = zeroSec ∧ v.Time.nsec = 0)) ∧
    Time.IsZero { v with Valid := b } = Time.IsZero v ∧
    Time.IsZero { Time := zeroGoTime, Valid := true } = true ∧
    Time.IsNull { Time := zeroGoTime, Valid := true } = false := by
  refine ⟨?_, rfl, rfl, rfl⟩
  simp [Time.IsZero, goIsZero]

/-- C6: `Add`, `AddDate`, `Truncate` and `Round` preserve the `Valid`
flag and change only the instant field; they are total (no error
path exists). -/
theorem claim_C6_arithmetic_preserves_valid (v : Timi.Time) (d u yrs mos dys : Int) :
    (Time.Add v d).Valid = v.Valid ∧ (Time.Add v d).Time = goAdd v.Time d ∧
    (Time.AddDate v yrs mos dys).Valid = v.Valid ∧
    (Time.AddDate v yrs mos dys).Time = goAddDate v.Time yrs mos dys ∧
    (Time.Truncate v u).Valid = v.Valid ∧
    (Time.Truncate v u).Time = goTruncate v.Time u ∧
    (Time.Round v u).Valid = v.Valid ∧
    (Time.Round v u).Time = goRound v.Time u :=
  ⟨rfl, rfl, rfl, rfl, rfl, rfl, rfl, rfl⟩

/-- C7: `Value` never errors and emits the null marker exactly for
invalid values; scanning the emitted driver value back reproduces the
validity flag and (for valid values) the same UTC instant. -/
theorem claim_C7_row_roundtrip (v t0 : Timi.Time) :
    (Time.Value v).2 = none ∧
    ((Time.Value v).1 = DriverValue.vnull ↔ v.Valid = false) ∧
    Time.Scan t0 (Time.Value v).1 =
      ((if v.Valid then { Time := goUTC v.Time, Valid := true } else NilTime), none) ∧
    (goUTC v.Time).sec = v.Time.sec ∧ (goUTC v.Time).nsec = v.Time.nsec := by
  cases hv : v.Valid <;>
    simp [Time.Value, sqlNullTimeValue, Time.Scan, sqlNullTimeScan, hv, NilTime, goUTC]

/-- C9: `Before`, `After`, `Equal` and `Compare` depend only on the two
instants; flipping either operand validity flag never changes any
result, and all four are total. -/
theorem claim_C9_compare_ignores_valid (a b : GoTime) (v1 v2 v3 v4 : Bool) :
    Time.Before ⟨a, v1⟩ ⟨b, v2⟩ = Time.Before ⟨a, v3⟩ ⟨b, v4⟩ ∧
    Time.After ⟨a, v1⟩ ⟨b, v2⟩ = Time.After ⟨a, v3⟩ ⟨b, v4⟩ ∧
    Time.Equal ⟨a, v1⟩ ⟨b, v2⟩ = Time.Equal ⟨a, v3⟩ ⟨b, v4⟩ ∧
    Time.Compare ⟨a, v1⟩ ⟨b, v2⟩ = Time.Compare ⟨a, v3⟩ ⟨b, v4⟩ :=
  ⟨rfl, rfl, rfl, rfl⟩

/-- C10: whenever a JSON or text decode fails, the receiver is left
with `Valid = true` (the flag is set before the parse is attempted). -/
theorem claim_C10_decode_failure_not_atomic (t0 : Timi.Time) (bs : List Nat) :
    ((Time.UnmarshalJSON t0 bs).2.isSome = true →
      (Time.UnmarshalJSON t0 bs).1.Valid = true) ∧
    ((Time.UnmarshalText t0 bs).2.isSome = true →
      (Time.UnmarshalText t0 bs).1.Valid = true) := by
  constructor
  · intro h
    unfold Time.UnmarshalJSON at h ⊢
    by_cases hb : bs = nullLit
    · rw [if_pos hb] at h
      simp at h
    · rw [if_neg hb] at h ⊢
      rcases hgo : goTimeUnmarshalJSON t0.Time bs with ⟨g, oe⟩
      cases oe <;> simp at h ⊢
  · intro h
    unfold Time.UnmarshalText at h ⊢
    by_cases hb : bs = nullLit
    · rw [if_pos hb] at h
      simp at h
    · rw [if_neg hb] at h ⊢
      rcases hgo : goTimeUnmarshalText t0.Time bs with ⟨g, oe⟩
      cases oe <;> simp at h ⊢

/-- C1: decoding the bytes produced by `MarshalJSON` succeeds and
yields the same instant and the same validity flag; for a null value
the produced bytes decode to a value with `IsNull`. -/
theorem claim_C1_json_roundtrip (v t0 : Timi.Time) (bs : List Nat)
    (h9 : v.Time.nsec < 1000000000)
    (henc : Time.MarshalJSON v = Except.ok bs) :
    (Time.UnmarshalJSON t0 bs).2 = none ∧
    (v.Valid = true →
      (Time.UnmarshalJSON t0 bs).1.Valid = true ∧
      (Time.UnmarshalJSON t0 bs).1.Time.sec = v.Time.sec ∧
      (Time.UnmarshalJSON t0 bs).1.Time.nsec = v.Time.nsec) ∧
    (v.Valid = false → (Time.UnmarshalJSON t0 bs).1.IsNull = true) := by
  cases hv : v.Valid
  · unfold Time.MarshalJSON at henc
    rw [hv] at henc
    simp only [Bool.not_false, if_true] at henc
    injection henc with hbs
    subst hbs
    unfold Time.UnmarshalJSON
    rw [if_pos rfl]
    exact ⟨rfl, fun ht => Bool.noConfusion ht, fun _ => rfl⟩
  · unfold Time.MarshalJSON at henc
    rw [hv] at henc
    simp only [Bool.not_true, Bool.false_eq_true, if_false] at henc
    unfold goTimeMarshalJSON at henc
    by_cases hcan : canMarshalRFC3339 v.Time = true
    · rw [if_pos hcan] at henc
      injection henc with hbs
      subst hbs
      unfold canMarshalRFC3339 at hcan
      simp only [Bool.and_eq_true, decide_eq_true_eq, beq_iff_eq,
        civilFromDays_1] at hcan
      obtain ⟨⟨⟨hy0, hy1⟩, hmod⟩, habs⟩ := hcan
      have hpf := parseRFC3339_formatRFC3339 v.Time h9 hy0 hy1 hmod habs
      have hne : (34 :: (formatRFC3339 v.Time ++ [34])) ≠ nullLit := by
        intro h
        unfold nullLit at h
        simp at h
      unfold Time.UnmarshalJSON
      rw [if_neg hne]
      unfold goTimeUnmarshalJSON
      rw [if_neg hne]
      have hq : 2 ≤ (34 :: (formatRFC3339 v.Time ++ [34])).length ∧
          (34 :: (formatRFC3339 v.Time ++ [34])).head? = some 34 ∧
          (34 :: (formatRFC3339 v.Time ++ [34])).getLast? = some 34 := by
        refine ⟨by simp, rfl, ?_⟩
        rw [show (34 :: (formatRFC3339 v.Time ++ [34])) =
          (34 :: formatRFC3339 v.Time) ++ [34] from by simp]
        exact List.getLast?_concat (34 :: formatRFC3339 v.Time)
      rw [if_pos hq]
      have hstrip : ((34 :: (formatRFC3339 v.Time ++ [34])).drop 1).dropLast =
          formatRFC3339 v.Time := by
        simp
      rw [hstrip, hpf]
      exact ⟨rfl, fun _ => ⟨rfl, rfl, rfl⟩, fun hf => Bool.noConfusion hf⟩
    · rw [if_neg hcan] at henc
      exact Except.noConfusion henc

set_option maxRecDepth 40000 in
/-- C1 witness: a concrete valid value round trips through the JSON
codec. -/
theorem claim_C1_json_roundtrip_witness :
    (Time.UnmarshalJSON NilTime
        [34, 50, 48, 50, 49, 45, 48, 49, 45, 48, 49, 84, 48, 48, 58,
         48, 48, 58, 48, 48, 90, 34]).2 = none ∧
    (Time.UnmarshalJSON NilTime
        [34, 50, 48, 50, 49, 45, 48, 49, 45, 48, 49, 84, 48, 48, 58,
         48, 48, 58, 48, 48, 90, 34]).1.Valid = true ∧
    (Time.UnmarshalJSON NilTime
        [34, 50, 48, 50, 49, 45, 48, 49, 45, 48, 49, 84, 48, 48, 58,
         48, 48, 58, 48, 48, 90, 34]).1.Time.sec =
      (Date 2021 1 1 0 0 0 0 0).Time.sec := by
  have h := claim_C1_json_roundtrip (Date 2021 1 1 0 0 0 0 0) NilTime
    [34, 50, 48, 50, 49, 45, 48, 49, 45, 48, 49, 84, 48, 48, 58,
     48, 48, 58, 48, 48, 90, 34] (by decide) (by rfl)
  exact ⟨h.1, (h.2.1 rfl).1, (h.2.1 rfl).2.1⟩

/-- C8: the BSON encode/decode pair round trips every valid value whose
instant is truncated to millisecond resolution (within the signed
64-bit millisecond range), and the Null Value maps to the native null
tag with no payload and back. -/
theorem claim_C8_bson_roundtrip (v : Timi.Time) (h9 : v.Time.nsec < 1000000000)
    (hms : v.Time.nsec % 1000000 = 0)
    (hlo : -9223372036854775808 ≤ goUnixMilli v.Time)
    (hhi : goUnixMilli v.Time < 9223372036854775808) :
    (v.Valid = true →
      UnmarshalTimiBSON (MarshalTimiBSON v).1 (MarshalTimiBSON v).2 =
        ({ Time := { sec := v.Time.sec, nsec := v.Time.nsec, off := 0 },
           Valid := true }, none)) ∧
    (v.Valid = false →
      MarshalTimiBSON v = (BsonType.tnull, none) ∧
      UnmarshalTimiBSON BsonType.tnull none = (NilTime, none) ∧
      (UnmarshalTimiBSON BsonType.tnull none).1.IsNull = true) := by
  constructor
  · intro hv
    unfold MarshalTimiBSON
    rw [hv]
    simp only [Bool.not_true, Bool.false_eq_true, if_false]
    unfold UnmarshalTimiBSON bsonMarshalValueTime
    rw [if_neg (by decide : ¬(BsonType.tdatetime = BsonType.tnull))]
    unfold bsonUnmarshalValueTime
    rw [show (some (toLE64 (goUnixMilli v.Time))).getD [] =
      toLE64 (goUnixMilli v.Time) from rfl]
    rw [if_pos (toLE64_length (goUnixMilli v.Time))]
    rw [fromLE64_toLE64 _ hlo hhi, goFromUnixMilli_goUnixMilli v.Time h9 hms]
    rfl
  · intro hv
    unfold MarshalTimiBSON UnmarshalTimiBSON
    rw [hv]
    exact ⟨rfl, rfl, rfl⟩

/-- C8 witness: a concrete whole-second value round trips through the
BSON helpers. -/
theorem claim_C8_bson_roundtrip_witness :
    UnmarshalTimiBSON (MarshalTimiBSON (Date 2021 1 1 0 0 0 0 0)).1
        (MarshalTimiBSON (Date 2021 1 1 0 0 0 0 0)).2 =
      ({ Time := { sec := (Date 2021 1 1 0 0 0 0 0).Time.sec,
                   nsec := (Date 2021 1 1 0 0 0 0 0).Time.nsec, off := 0 },
         Valid := true }, none) :=
  (claim_C8_bson_roundtrip (Date 2021 1 1 0 0 0 0 0) (by decide) (by decide)
    (by decide) (by decide)).1 rfl

/-- C10 witness: the 1-byte input `x` fails both decoders and leaves
`Valid = true`. -/
theorem claim_C10_witness :
    (Time.UnmarshalJSON NilTime [120]).1.Valid = true ∧
    (Time.UnmarshalText NilTime [120]).1.Valid = true :=
  ⟨(claim_C10_decode_failure_not_atomic NilTime [120]).1 (by decide),
   (claim_C10_decode_failure_not_atomic NilTime [120]).2 (by decide)⟩

end Timi
